import Mathlib

/-!
Verification development for databroker-pack (`databroker_pack/_pack.py`).

The Python module is shallowly embedded here.  External collaborators are
modelled as explicit parameters or small state types:

* a document is a record carrying the fields this module reads
  (`doc["root"]` on resource documents) plus an opaque payload;
* a Run is its canonical document stream (`run.canonical(fill="no")`)
  together with its `get_file_list` capability;
* the Filler collaborator is a fallible function on (name, doc) pairs
  (any exception it raises is an `Except.error`);
* the Serializer and the filesystem are modelled by an explicit effect
  trace: the serializer writes, its close, and each `get_file_list`
  enumeration appear in order in the trace, so temporal claims about
  these side effects become claims about the shape of the trace;
* `hashlib.md5(...).hexdigest()` is an external library call and is kept
  abstract as a string-valued parameter `md5hex`;
* the suitcase Manager is an association list from file names to file
  contents, with the open modes used by the module ("a" append,
  "xt" exclusive create) embedded in the functions that use them.
-/

namespace DatabrokerPack

/-- Error values standing in for Python exceptions. -/
abbrev Err := String

/-- A document body: the `root` field (read off resource documents via
`doc["root"]`) plus an opaque payload distinguishing documents. -/
structure Doc where
  root : String
  payload : String
  deriving DecidableEq, Repr

/-- One Run: its canonical stream of (name, document) pairs as yielded by
`run.canonical(fill="no")`, and its `get_file_list` capability. -/
structure Run where
  docs : List (String × Doc)
  fileList : Doc → List String

/-- The Filler collaborator: transforms a (name, doc) pair, possibly
raising (modelled by `Except.error`). -/
abbrev Filler := String → Doc → Except Err (String × Doc)

/-- The root → set-of-file-paths mapping returned by the export functions
(`collections.defaultdict(set)` in the source; absent keys map to `∅`). -/
abbrev FilesMap := String → Finset String

/-- Observable side effects of `export_run`, in order: a document handed
to the serializer, the serializer being closed by its `with` block, and a
`run.get_file_list(resource)` enumeration. -/
inductive Effect where
  | serialize (name : String) (doc : Doc)
  | closeSerializer
  | enumerate (resource : Doc)
  deriving DecidableEq, Repr

/-- The document loop of `export_run` (`for name, doc in run.canonical(...)`):
collects resource documents, performs the optional fill, and hands documents
to the serializer unless `dry_run`.  Returns the recorded resources, the
serializer-write trace, and the exception (if the filler raised one, which
aborts the loop there). -/
def docLoop (fill : Filler) (external : Option String) (dryRun : Bool) :
    List (String × Doc) → List Doc × List Effect × Option Err
  | [] => ([], [], none)
  | (name, doc) :: rest =>
    let res0 : List Doc := if name = "resource" then [doc] else []
    match (if external = some "fill" then fill name doc else Except.ok (name, doc)) with
    | Except.error e => (res0, [], some e)
    | Except.ok (n, d) =>
      let eff : List Effect := if dryRun then [] else [Effect.serialize n d]
      let r := docLoop fill external dryRun rest
      (res0 ++ r.1, eff ++ r.2.1, r.2.2)

/-- The enumeration loop of `export_run`
(`files[resource["root"]].update(run.get_file_list(resource))`). -/
def enumLoop (run : Run) : List Doc → FilesMap → FilesMap
  | [], files => files
  | r :: rest, files =>
    enumLoop run rest
      (fun x => if x = r.root then files x ∪ (run.fileList r).toFinset else files x)

/-- Embedding of `export_run` (lines 166-226 of `_pack.py`).  Returns the
full effect trace together with the returned mapping (or the propagated
exception).  The serializer `with` block closes before the enumeration
loop runs, so `closeSerializer` precedes every `enumerate` effect. -/
def export_run (run : Run) (external : Option String) (dryRun : Bool) (fill : Filler) :
    List Effect × Except Err FilesMap :=
  let r := docLoop fill external dryRun run.docs
  match r.2.2 with
  | some e => (r.2.1 ++ [Effect.closeSerializer], Except.error e)
  | none =>
    if external = none then
      (r.2.1 ++ [Effect.closeSerializer] ++ r.1.map Effect.enumerate,
       Except.ok (enumLoop run r.1 (fun _ => ∅)))
    else
      (r.2.1 ++ [Effect.closeSerializer], Except.ok (fun _ => ∅))

/-- The resource documents of a canonical stream, in order of appearance. -/
def resourcesOf (docs : List (String × Doc)) : List Doc :=
  docs.filterMap (fun nd => if nd.1 = "resource" then some nd.2 else none)

/-- The serializer-write trace produced when no filling happens: every
document of the stream, unchanged, unless `dry_run` suppresses writes. -/
def serializedTrace (dryRun : Bool) (docs : List (String × Doc)) : List Effect :=
  if dryRun then [] else docs.map (fun nd => Effect.serialize nd.1 nd.2)

/-- The set of file paths obtained from `run.get_file_list` over all
resources of the run recorded under the given root. -/
def rootFileSet (run : Run) (x : String) : Finset String :=
  ((resourcesOf run.docs).filter (fun r => r.root = x)).foldr
    (fun r acc => (run.fileList r).toFinset ∪ acc) ∅

theorem docLoop_no_fill (fill : Filler) (external : Option String) (dryRun : Bool)
    (docs : List (String × Doc)) (h : external ≠ some "fill") :
    docLoop fill external dryRun docs = (resourcesOf docs, serializedTrace dryRun docs, none) := by
  induction docs with
  | nil => cases dryRun <;> simp [docLoop, resourcesOf, serializedTrace]
  | cons nd rest ih =>
    obtain ⟨name, doc⟩ := nd
    by_cases hn : name = "resource" <;> cases dryRun <;>
      simp_all [docLoop, resourcesOf, serializedTrace, if_neg h, List.filterMap_cons]

theorem docLoop_trace_serialize (fill : Filler) (external : Option String) (dryRun : Bool)
    (docs : List (String × Doc)) :
    ∀ e ∈ (docLoop fill external dryRun docs).2.1, ∃ n d, e = Effect.serialize n d := by
  induction docs with
  | nil => simp [docLoop]
  | cons nd rest ih =>
    obtain ⟨name, doc⟩ := nd
    intro e he
    simp only [docLoop] at he
    rcases hf : (if external = some "fill" then fill name doc else Except.ok (name, doc)) with
      e' | nd'
    · rw [hf] at he
      simp at he
    · obtain ⟨n, d⟩ := nd'
      rw [hf] at he
      simp only [List.mem_append] at he
      rcases he with he | he
      · cases dryRun with
        | true => simp at he
        | false =>
          simp at he
          exact ⟨n, d, he⟩
      · exact ih e he

theorem enumLoop_spec (run : Run) (rs : List Doc) (m : FilesMap) (x : String) :
    enumLoop run rs m x
      = m x ∪ (rs.filter (fun r => r.root = x)).foldr
          (fun r acc => (run.fileList r).toFinset ∪ acc) ∅ := by
  induction rs generalizing m with
  | nil => simp [enumLoop]
  | cons r rest ih =>
    simp only [enumLoop, ih]
    by_cases h : r.root = x
    · rw [if_pos h.symm, List.filter_cons_of_pos (by simp [h]), List.foldr_cons,
        Finset.union_assoc]
    · rw [if_neg (fun hx => h hx.symm), List.filter_cons_of_neg (by simp [h])]

theorem docLoop_dry (fill : Filler) (external : Option String) (docs : List (String × Doc)) :
    docLoop fill external true docs
      = ((docLoop fill external false docs).1, [], (docLoop fill external false docs).2.2) := by
  induction docs with
  | nil => simp [docLoop]
  | cons nd rest ih =>
    obtain ⟨name, doc⟩ := nd
    simp only [docLoop]
    rcases hf : (if external = some "fill" then fill name doc else Except.ok (name, doc)) with
      e | nd'
    · simp
    · obtain ⟨n, d⟩ := nd'
      simp [ih]

/-- C5: with `dry_run=True`, `export_run` passes no document to the
serializer (its trace holds no serializer write), and the value it returns
is the one the `dry_run=False` call returns under the same `external`
argument — in particular the correct mapping when `external` is None. -/
theorem export_run_dry_run (run : Run) (external : Option String) (fill : Filler) :
    (export_run run external true fill).2 = (export_run run external false fill).2 ∧
    ∀ n d, Effect.serialize n d ∉ (export_run run external true fill).1 := by
  have hd := docLoop_dry fill external run.docs
  constructor
  · simp only [export_run, hd]
    cases (docLoop fill external false run.docs).2.2 with
    | some e => simp
    | none => by_cases he : external = none <;> simp [he]
  · intro n d
    simp only [export_run, hd]
    cases (docLoop fill external false run.docs).2.2 with
    | some e => simp
    | none => by_cases he : external = none <;> simp [he]

/-- C2: `export_run` returns the empty root→files mapping when `external`
is "fill" or "omit" (no enumeration effect occurs); with `external = None`
it returns the mapping sending each root named in a recorded resource
document to the set of paths `get_file_list` yields over all resources
under that root, and its effect trace is the serializer writes, then the
serializer close, then the enumerations — so enumeration happens only
after the full iteration and after the serializer is closed. -/
theorem export_run_external_modes (run : Run) (dryRun : Bool) (fill : Filler) :
    (∀ s : String, s = "fill" ∨ s = "omit" →
      (∀ m, (export_run run (some s) dryRun fill).2 = Except.ok m → m = fun _ => ∅) ∧
      ∀ r, Effect.enumerate r ∉ (export_run run (some s) dryRun fill).1) ∧
    (export_run run none dryRun fill).1
      = serializedTrace dryRun run.docs ++ [Effect.closeSerializer]
          ++ (resourcesOf run.docs).map Effect.enumerate ∧
    (∀ e ∈ serializedTrace dryRun run.docs, ∃ n d, e = Effect.serialize n d) ∧
    (export_run run none dryRun fill).2 = Except.ok (fun x => rootFileSet run x) := by
  have hnone := docLoop_no_fill fill none dryRun run.docs (by simp)
  refine ⟨?_, ?_, ?_, ?_⟩
  · intro s _hs
    rcases hdl : docLoop fill (some s) dryRun run.docs with ⟨res, tr, err⟩
    have htr : ∀ e ∈ tr, ∃ n d, e = Effect.serialize n d := by
      intro e he
      exact docLoop_trace_serialize fill (some s) dryRun run.docs e (by rw [hdl]; exact he)
    constructor
    · intro m hm
      simp only [export_run, hdl] at hm
      cases err with
      | some e => simp at hm
      | none =>
        simp at hm
        exact hm.symm
    · intro r
      simp only [export_run, hdl]
      cases err with
      | some e =>
        simp only [List.mem_append]
        rintro (hmem | hmem)
        · obtain ⟨n, d, hn⟩ := htr _ hmem
          cases hn
        · simp at hmem
      | none =>
        simp only [reduceCtorEq, reduceIte, List.mem_append]
        rintro (hmem | hmem)
        · obtain ⟨n, d, hn⟩ := htr _ hmem
          cases hn
        · simp at hmem
  · simp [export_run, hnone]
  · intro e he
    simp only [serializedTrace] at he
    cases dryRun with
    | true => simp at he
    | false =>
      simp only [Bool.false_eq_true, if_false, List.mem_map] at he
      obtain ⟨nd, _, hnd⟩ := he
      exact ⟨nd.1, nd.2, hnd.symm⟩
  · simp only [export_run, hnone]
    have henum : enumLoop run (resourcesOf run.docs) (fun _ => ∅) = fun x => rootFileSet run x := by
      funext x
      rw [enumLoop_spec]
      simp [rootFileSet]
    simp [henum]

/-- Concrete run used by the witnesses below: three resource documents
over two roots, with overlapping file lists. -/
def sampleRun : Run :=
  ⟨[("start", ⟨"", "s"⟩), ("resource", ⟨"/r1", "a"⟩), ("resource", ⟨"/r2", "b"⟩),
    ("resource", ⟨"/r1", "c"⟩), ("stop", ⟨"", "z"⟩)],
   fun d =>
    if d.payload = "a" then ["/r1/f1", "/r1/f2"]
    else if d.payload = "b" then ["/r2/g"]
    else if d.payload = "c" then ["/r1/f2", "/r1/f3"]
    else []⟩

/-- A filler that succeeds on every document, leaving it unchanged. -/
def idFill : Filler := fun n d => Except.ok (n, d)

/-- Witness for C2: evaluating `export_run` on a concrete run shows the
hypotheses of `export_run_external_modes` are satisfiable: the "fill" call
returns the empty mapping, the "omit" call performs no enumeration, and
the `external = None` call returns the enumerated mapping, whose value at
root "/r1" is the union of the two resources under it. -/
theorem export_run_external_modes_witness :
    (export_run sampleRun (some "fill") false idFill).2 = Except.ok (fun _ => ∅) ∧
    Effect.enumerate ⟨"/r1", "a"⟩ ∉ (export_run sampleRun (some "omit") false idFill).1 ∧
    (export_run sampleRun none false idFill).2 = Except.ok (fun x => rootFileSet sampleRun x) ∧
    rootFileSet sampleRun "/r1" = {"/r1/f1", "/r1/f2", "/r1/f3"} := by
  have h := export_run_external_modes sampleRun false idFill
  refine ⟨(h.1 "fill" (Or.inl rfl)).1 _ rfl ▸ rfl, (h.1 "omit" (Or.inr rfl)).2 _,
    h.2.2.2, by decide⟩

/-- C9: `export_run` validates nothing about `external`: any value other
than None and "fill" — "omit", the CLI's "ignore", or anything else —
gives exactly the behaviour of "omit" (documents serialized unfilled,
empty mapping returned), and no error is raised for such values. -/
theorem export_run_no_validation (run : Run) (dryRun : Bool) (fill : Filler) (s : String)
    (h : s ≠ "fill") :
    export_run run (some s) dryRun fill = export_run run (some "omit") dryRun fill ∧
    (export_run run (some s) dryRun fill).2 = Except.ok (fun _ => ∅) := by
  have h1 := docLoop_no_fill fill (some s) dryRun run.docs (by simpa using h)
  have h2 := docLoop_no_fill fill (some "omit") dryRun run.docs (by simp)
  constructor
  · simp [export_run, h1, h2]
  · simp [export_run, h1]

/-- Witness for C9: the CLI's undocumented value "ignore" behaves exactly
as "omit" on a concrete run. -/
theorem export_run_no_validation_witness :
    export_run sampleRun (some "ignore") false idFill
      = export_run sampleRun (some "omit") false idFill ∧
    (export_run sampleRun (some "ignore") false idFill).2 = Except.ok (fun _ => ∅) :=
  export_run_no_validation sampleRun false idFill "ignore" (by decide)

/-- The suitcase Manager: named output streams, keyed by file name.
The artifact label ("manifest", "catalog_file") plays no role in the
claims and is dropped. -/
abbrev Manager (α : Type) := List (String × α)

/-- Content of the named stream, if it exists. -/
def managerFind {α : Type} (m : Manager α) (name : String) : Option α :=
  match m with
  | [] => none
  | kv :: rest => if kv.1 = name then some kv.2 else managerFind rest name

/-- Replace (or create) the named stream's content. -/
def managerSet {α : Type} (m : Manager α) (name : String) (v : α) : Manager α :=
  match m with
  | [] => [(name, v)]
  | kv :: rest => if kv.1 = name then (name, v) :: rest else kv :: managerSet rest name v

/-- Content of a text stream opened in append mode: existing content, or
empty for a fresh file. -/
def managerGetD (m : Manager String) (name : String) : String :=
  (managerFind m name).getD ""

theorem managerFind_set {α : Type} (m : Manager α) (name : String) (v : α) :
    managerFind (managerSet m name v) name = some v := by
  induction m with
  | nil => simp [managerFind, managerSet]
  | cons kv rest ih =>
    by_cases h : kv.1 = name
    · simp [managerFind, managerSet, h]
    · simp [managerFind, managerSet, h, ih]

/-- Model of the module's root-hash helper: it applies `hashlib.md5` to
the root string and returns the hex digest.  The hash itself is an
external library call and stays abstract as the parameter `md5hex`. -/
def root_hash (md5hex : String → String) (root : String) : String := md5hex root

/-- Split a character list at every slash. -/
def splitChar : List Char → List (List Char)
  | [] => [[]]
  | c :: cs =>
    let r := splitChar cs
    if c = '/' then [] :: r
    else
      match r with
      | [] => [[c]]
      | g :: gs => (c :: g) :: gs

/-- Split a string at every "/" (as Python's `p.split("/")`). -/
def splitOnSlash (s : String) : List String :=
  (splitChar s.data).map (fun cs => String.mk cs)

/-- Whether a POSIX path is absolute. -/
def isAbsolute (p : String) : Bool :=
  match p.data with
  | c :: _ => c = '/'
  | [] => false

/-- Model of `pathlib.Path(p).parts` for POSIX paths: a leading "/" part
when the path is absolute, then the nonempty, non-"." segments. -/
def pathParts (p : String) : List String :=
  let segs := (splitOnSlash p).filter (fun s => s ≠ "" && s ≠ ".")
  if isAbsolute p then "/" :: segs else segs

/-- Lexicographic (codepoint) order on character lists, as Python compares
strings. -/
def charListLe : List Char → List Char → Bool
  | [], _ => true
  | _ :: _, [] => false
  | a :: as, b :: bs => if a < b then true else if b < a then false else charListLe as bs

/-- Python's `s <= t` on strings. -/
def strLe (s t : String) : Bool := charListLe s.data t.data

/-- Insert into a sorted list, keeping duplicates (stable). -/
def insertSorted (x : String) : List String → List String
  | [] => [x]
  | y :: ys => if strLe x y then x :: y :: ys else y :: insertSorted x ys

/-- Python's `sorted` on a list of strings. -/
def sortStrings (l : List String) : List String := l.foldr insertSorted []

/-- Python's `sep.join(l)`. -/
def joinSep (sep : String) : List String → String
  | [] => ""
  | [s] => s
  | s :: rest => s ++ sep ++ joinSep sep rest

/-- The manifest file name computed by `write_external_files_manifest`
(lines 245-253 of `_pack.py`): the root hash and
`len(pathlib.Path(root).parts) - 1`. -/
def manifest_name (md5hex : String → String) (root : String) : String :=
  "external_files_manifest_" ++ root_hash md5hex root ++ "_"
    ++ toString ((pathParts root).length - 1) ++ ".txt"

/-- Embedding of `write_external_files_manifest` (lines 235-259): opens
the per-root manifest through the Manager in append mode ("a", so the
stream position is the existing content's length), writes a separating
newline when that position is nonzero, then the newline-joined sorted
file list. -/
def write_external_files_manifest (md5hex : String → String) (m : Manager String)
    (root : String) (files : List String) : Manager String :=
  let name := manifest_name md5hex root
  let old := managerGetD m name
  let sep := if old.length = 0 then "" else "\n"
  managerSet m name (old ++ sep ++ joinSep "\n" (sortStrings files))

theorem manifest_write_content (md5hex : String → String) (m : Manager String)
    (root : String) (files : List String) :
    managerGetD (write_external_files_manifest md5hex m root files) (manifest_name md5hex root)
      = managerGetD m (manifest_name md5hex root)
        ++ (if (managerGetD m (manifest_name md5hex root)).length = 0 then "" else "\n")
        ++ joinSep "\n" (sortStrings files) := by
  simp only [write_external_files_manifest, managerGetD, managerFind_set, Option.getD_some]

/-- C3: two successive manifest writes for the same manager and root
yield the newline-joined sorted first batch, a single separator newline
(written because the stream position is then nonzero), then the
newline-joined sorted second batch; each batch is sorted independently,
with no sorting across the two calls. -/
theorem manifest_append_two_calls (md5hex : String → String) (m0 : Manager String)
    (root : String) (F1 F2 : List String)
    (h0 : managerGetD m0 (manifest_name md5hex root) = "")
    (h1 : (joinSep "\n" (sortStrings F1)).length ≠ 0) :
    managerGetD
        (write_external_files_manifest md5hex
          (write_external_files_manifest md5hex m0 root F1) root F2)
        (manifest_name md5hex root)
      = joinSep "\n" (sortStrings F1) ++ "\n" ++ joinSep "\n" (sortStrings F2) := by
  have e1 : managerGetD (write_external_files_manifest md5hex m0 root F1)
      (manifest_name md5hex root) = joinSep "\n" (sortStrings F1) := by
    rw [manifest_write_content, h0]
    simp [String.empty_append]
  rw [manifest_write_content, e1, if_neg h1]

/-- Witness for C3: a fresh manager, first batch ["b", "a"], second batch
["c"]: the manifest contains the two independently sorted batches joined
by one newline. -/
theorem manifest_append_two_calls_witness :
    managerGetD
        (write_external_files_manifest (fun _ => "h")
          (write_external_files_manifest (fun _ => "h") [] "/tmp/x" ["b", "a"]) "/tmp/x" ["c"])
        (manifest_name (fun _ => "h") "/tmp/x")
      = joinSep "\n" (sortStrings ["b", "a"]) ++ "\n" ++ joinSep "\n" (sortStrings ["c"]) ∧
    joinSep "\n" (sortStrings ["b", "a"]) ++ "\n" ++ joinSep "\n" (sortStrings ["c"])
      = "a\nb\nc" :=
  ⟨manifest_append_two_calls (fun _ => "h") [] "/tmp/x" ["b", "a"] ["c"] (by decide) (by decide),
   by decide⟩

/-- Number of path segments of a POSIX path: its nonempty, non-"."
components. -/
def segmentCount (p : String) : Nat :=
  ((splitOnSlash p).filter (fun s => s ≠ "" && s ≠ ".")).length

/-- C8: for an (absolute) root, the manifest writer opens, in append
mode, the file `external_files_manifest_{root_hash}_{root_index}.txt`
where the root hash is the deterministic hash of the root string and the
root index is the root's path-segment count; append mode preserves the
stream's existing content as a prefix. -/
theorem manifest_name_format (md5hex : String → String) (m : Manager String)
    (root : String) (files : List String) (habs : isAbsolute root = true) :
    manifest_name md5hex root
      = "external_files_manifest_" ++ md5hex root ++ "_"
          ++ toString (segmentCount root) ++ ".txt" ∧
    ∃ t, managerGetD (write_external_files_manifest md5hex m root files)
          (manifest_name md5hex root)
        = managerGetD m (manifest_name md5hex root) ++ t := by
  constructor
  · simp [manifest_name, root_hash, pathParts, segmentCount, habs]
  · exact ⟨_, by rw [manifest_write_content, String.append_assoc]⟩

/-- Witness for C8: the absolute root "/tmp/weoifjew" (the example in the
source's comment) yields root index 2 in the manifest name. -/
theorem manifest_name_format_witness :
    manifest_name (fun _ => "h") "/tmp/weoifjew"
      = "external_files_manifest_" ++ "h" ++ "_"
          ++ toString (segmentCount "/tmp/weoifjew") ++ ".txt" ∧
    manifest_name (fun _ => "h") "/tmp/weoifjew" = "external_files_manifest_h_2.txt" ∧
    ∃ t, managerGetD (write_external_files_manifest (fun _ => "h") [] "/tmp/weoifjew" ["/tmp/weoifjew/f"])
          (manifest_name (fun _ => "h") "/tmp/weoifjew")
        = managerGetD [] (manifest_name (fun _ => "h") "/tmp/weoifjew") ++ t :=
  ⟨(manifest_name_format (fun _ => "h") [] "/tmp/weoifjew" ["/tmp/weoifjew/f"] (by decide)).1,
   by decide,
   (manifest_name_format (fun _ => "h") [] "/tmp/weoifjew" ["/tmp/weoifjew/f"] (by decide)).2⟩

/-- Python values as assembled by the catalog-file writers: strings,
lists, and insertion-ordered dicts.  `yaml.dump` is an external, injective
serialization, so the Manager stores the structure itself. -/
inductive PyVal where
  | str (s : String)
  | list (xs : List PyVal)
  | dict (entries : List (String × PyVal))

/-- The descriptor structure built by `write_msgpack_catalog_file`
(lines 305-309 of `_pack.py`): `{sources: {catalog: {driver, args}}}`,
where args holds `paths` and, when a root map was supplied, `root_map`. -/
def msgpack_catalog_dict (paths : PyVal) (root_map : Option (List (String × String))) : PyVal :=
  let args : List (String × PyVal) :=
    [("paths", paths)] ++
      match root_map with
      | some rm => [("root_map", PyVal.dict (rm.map (fun kv => (kv.1, PyVal.str kv.2))))]
      | none => []
  let source := PyVal.dict [("driver", PyVal.str "bluesky-msgpack-catalog"),
                            ("args", PyVal.dict args)]
  PyVal.dict [("sources", PyVal.dict [("catalog", source)])]

/-- The descriptor structure built by `write_jsonl_catalog_file`
(lines 329-333): identical construction with the jsonl driver literal. -/
def jsonl_catalog_dict (paths : PyVal) (root_map : Option (List (String × String))) : PyVal :=
  let args : List (String × PyVal) :=
    [("paths", paths)] ++
      match root_map with
      | some rm => [("root_map", PyVal.dict (rm.map (fun kv => (kv.1, PyVal.str kv.2))))]
      | none => []
  let source := PyVal.dict [("driver", PyVal.str "bluesky-jsonl-catalog"),
                            ("args", PyVal.dict args)]
  PyVal.dict [("sources", PyVal.dict [("catalog", source)])]

/-- Embedding of `write_msgpack_catalog_file` (lines 294-312): opens
`catalog.yml` through the Manager in exclusive-create mode ("xt"), which
raises `FileExistsError` when the file already exists, and otherwise
writes the dumped descriptor. -/
def write_msgpack_catalog_file (m : Manager PyVal) (paths : PyVal)
    (root_map : Option (List (String × String))) : Except Err (Manager PyVal) :=
  match managerFind m "catalog.yml" with
  | some _ => Except.error "FileExistsError"
  | none => Except.ok (managerSet m "catalog.yml" (msgpack_catalog_dict paths root_map))

/-- Embedding of `write_jsonl_catalog_file` (lines 315-336). -/
def write_jsonl_catalog_file (m : Manager PyVal) (paths : PyVal)
    (root_map : Option (List (String × String))) : Except Err (Manager PyVal) :=
  match managerFind m "catalog.yml" with
  | some _ => Except.error "FileExistsError"
  | none => Except.ok (managerSet m "catalog.yml" (jsonl_catalog_dict paths root_map))

/-- Modelled from the spec's description of the descriptor shape, with
the driver name as a parameter: used to state that the two writers build
the same structure up to the driver literal. -/
def catalog_dict_spec (driver : String) (paths : PyVal)
    (root_map : Option (List (String × String))) : PyVal :=
  let args : List (String × PyVal) :=
    [("paths", paths)] ++
      match root_map with
      | some rm => [("root_map", PyVal.dict (rm.map (fun kv => (kv.1, PyVal.str kv.2))))]
      | none => []
  let source := PyVal.dict [("driver", PyVal.str driver), ("args", PyVal.dict args)]
  PyVal.dict [("sources", PyVal.dict [("catalog", source)])]

/-- The keys of the `args` dict inside a descriptor of the shape built
above. -/
def catalogArgsKeys (v : PyVal) : List String :=
  match v with
  | PyVal.dict [("sources", PyVal.dict [("catalog",
      PyVal.dict [("driver", _), ("args", PyVal.dict args)])])] => args.map (fun kv => kv.1)
  | _ => []

/-- C7: the two catalog-file writers build identical descriptor
structures `{sources: {catalog: {driver, args: {paths, root_map?}}}}`
except for the driver literal, and in both the args mapping carries the
`root_map` key exactly when a root map was supplied. -/
theorem catalog_dicts_differ_only_in_driver (paths : PyVal)
    (root_map : Option (List (String × String))) :
    msgpack_catalog_dict paths root_map
        = catalog_dict_spec "bluesky-msgpack-catalog" paths root_map ∧
    jsonl_catalog_dict paths root_map
        = catalog_dict_spec "bluesky-jsonl-catalog" paths root_map ∧
    ("root_map" ∈ catalogArgsKeys (msgpack_catalog_dict paths root_map) ↔ root_map ≠ none) ∧
    ("root_map" ∈ catalogArgsKeys (jsonl_catalog_dict paths root_map) ↔ root_map ≠ none) := by
  refine ⟨rfl, rfl, ?_, ?_⟩ <;>
    cases root_map <;>
      simp [msgpack_catalog_dict, jsonl_catalog_dict, catalogArgsKeys]

/-- C6: on a manager without `catalog.yml`, either descriptor writer
succeeds and records the descriptor; a second call to either writer then
fails with `FileExistsError` (exclusive-create mode) and the descriptor
written first is still the recorded one. -/
theorem catalog_file_exclusive_create (m : Manager PyVal) (p p2 : PyVal)
    (rm rm2 : Option (List (String × String)))
    (h : managerFind m "catalog.yml" = none) :
    (∀ m1, write_msgpack_catalog_file m p rm = Except.ok m1 →
      managerFind m1 "catalog.yml" = some (msgpack_catalog_dict p rm) ∧
      write_msgpack_catalog_file m1 p2 rm2 = Except.error "FileExistsError" ∧
      write_jsonl_catalog_file m1 p2 rm2 = Except.error "FileExistsError") ∧
    (∀ m1, write_jsonl_catalog_file m p rm = Except.ok m1 →
      managerFind m1 "catalog.yml" = some (jsonl_catalog_dict p rm) ∧
      write_msgpack_catalog_file m1 p2 rm2 = Except.error "FileExistsError" ∧
      write_jsonl_catalog_file m1 p2 rm2 = Except.error "FileExistsError") ∧
    write_msgpack_catalog_file m p rm
      = Except.ok (managerSet m "catalog.yml" (msgpack_catalog_dict p rm)) ∧
    write_jsonl_catalog_file m p rm
      = Except.ok (managerSet m "catalog.yml" (jsonl_catalog_dict p rm)) := by
  have hm : write_msgpack_catalog_file m p rm
      = Except.ok (managerSet m "catalog.yml" (msgpack_catalog_dict p rm)) := by
    simp [write_msgpack_catalog_file, h]
  have hj : write_jsonl_catalog_file m p rm
      = Except.ok (managerSet m "catalog.yml" (jsonl_catalog_dict p rm)) := by
    simp [write_jsonl_catalog_file, h]
  refine ⟨?_, ?_, hm, hj⟩
  · intro m1 h1
    rw [hm] at h1
    obtain rfl : managerSet m "catalog.yml" (msgpack_catalog_dict p rm) = m1 :=
      Except.ok.inj h1
    have hf := managerFind_set m "catalog.yml" (msgpack_catalog_dict p rm)
    exact ⟨hf, by simp [write_msgpack_catalog_file, hf], by simp [write_jsonl_catalog_file, hf]⟩
  · intro m1 h1
    rw [hj] at h1
    obtain rfl : managerSet m "catalog.yml" (jsonl_catalog_dict p rm) = m1 :=
      Except.ok.inj h1
    have hf := managerFind_set m "catalog.yml" (jsonl_catalog_dict p rm)
    exact ⟨hf, by simp [write_msgpack_catalog_file, hf], by simp [write_jsonl_catalog_file, hf]⟩

/-- Witness for C6: on the empty manager a first msgpack write succeeds
and the second write (either encoding) fails with `FileExistsError`. -/
theorem catalog_file_exclusive_create_witness :
    write_msgpack_catalog_file ([] : Manager PyVal) (PyVal.str "p") none
      = Except.ok (managerSet [] "catalog.yml" (msgpack_catalog_dict (PyVal.str "p") none)) ∧
    write_msgpack_catalog_file
        (managerSet [] "catalog.yml" (msgpack_catalog_dict (PyVal.str "p") none))
        (PyVal.str "q") none
      = Except.error "FileExistsError" ∧
    write_jsonl_catalog_file
        (managerSet [] "catalog.yml" (msgpack_catalog_dict (PyVal.str "p") none))
        (PyVal.str "q") none
      = Except.error "FileExistsError" := by
  have h := catalog_file_exclusive_create ([] : Manager PyVal) (PyVal.str "p") (PyVal.str "q")
    none none rfl
  obtain ⟨h1, -, hm, -⟩ := h
  obtain ⟨-, h2, h3⟩ := h1 _ hm
  exact ⟨hm, h2, h3⟩

/-- Model of `pathlib.Path(filename).relative_to(root)`: requires the
root's parts to be a prefix of the filename's parts, else raises
`ValueError`; returns the remaining parts joined. -/
def relative_to (filename root : String) : Except Err String :=
  let fp := pathParts filename
  let rp := pathParts root
  if rp.isPrefixOf fp then Except.ok (joinSep "/" (fp.drop rp.length))
  else Except.error "ValueError"

/-- The parent directory of a joined path (`dest.parent`). -/
def parentPath (p : String) : String := joinSep "/" ((splitOnSlash p).dropLast)

/-- One iteration of the copy loop: `os.makedirs(dest.parent,
exist_ok=True)` followed by `shutil.copy2(filename, dest)` (copy2
preserves file metadata — that is shutil's contract, external here). -/
structure CopyAction where
  mkdirParent : String
  src : String
  dest : String
  deriving DecidableEq, Repr

/-- The per-file loop of `copy_external_files` (lines 285-290): computes
the path relative to the root, rebinds `new_root`, and copies.  The
second component is the value of `new_root` after the loop: `none` when
the loop body never ran (the name stays unbound). -/
def copyLoop (target_directory rh root : String) :
    List String → Except Err (List CopyAction × Option String)
  | [] => Except.ok ([], none)
  | f :: rest =>
    match relative_to f root with
    | Except.error e => Except.error e
    | Except.ok rel =>
      let new_root := target_directory ++ "/" ++ rh
      let dest := new_root ++ "/" ++ rel
      match copyLoop target_directory rh root rest with
      | Except.error e => Except.error e
      | Except.ok (acts, _) => Except.ok (⟨parentPath dest, f, dest⟩ :: acts, some new_root)

/-- Embedding of `copy_external_files` (lines 262-291): runs the copy
loop and then evaluates `return {root: str(new_root)}`, which raises
`NameError` when the loop never bound `new_root`. -/
def copy_external_files (md5hex : String → String) (target_directory root : String)
    (files : List String) : Except Err (List CopyAction × List (String × String)) :=
  let rh := root_hash md5hex root
  match copyLoop target_directory rh root files with
  | Except.error e => Except.error e
  | Except.ok (_, none) => Except.error "NameError: name new_root is not defined"
  | Except.ok (acts, some new_root) => Except.ok (acts, [(root, new_root)])

/-- Destination of one copied file: `target_directory / root_hash / (file
relative to root)`. -/
def dest_of (target_directory rh root f : String) : String :=
  target_directory ++ "/" ++ rh ++ "/" ++ joinSep "/" ((pathParts f).drop (pathParts root).length)

/-- The copy action performed for one file. -/
def copyActionOf (target_directory rh root f : String) : CopyAction :=
  ⟨parentPath (dest_of target_directory rh root f), f, dest_of target_directory rh root f⟩

theorem copyLoop_ok (target_directory rh root : String) (files : List String)
    (h : ∀ f ∈ files, (pathParts root).isPrefixOf (pathParts f) = true) :
    copyLoop target_directory rh root files
      = Except.ok (files.map (fun f => copyActionOf target_directory rh root f),
          if files.isEmpty then none else some (target_directory ++ "/" ++ rh)) := by
  induction files with
  | nil => simp [copyLoop]
  | cons f rest ih =>
    have hrel : relative_to f root
        = Except.ok (joinSep "/" ((pathParts f).drop (pathParts root).length)) := by
      simp [relative_to, h f (by simp)]
    simp only [copyLoop, hrel, ih (fun g hg => h g (by simp [hg]))]
    simp [copyActionOf, dest_of]

/-- C4: for a nonempty list of files all under the root,
`copy_external_files` copies each file (with `shutil.copy2`, preserving
metadata), to `target_directory / root_hash(root) / (path relative to
root)`, creating parent directories first, and returns the single-entry
mapping from the root to `target_directory / root_hash(root)`. -/
theorem copy_external_files_spec (md5hex : String → String) (target_directory root : String)
    (files : List String) (hne : files ≠ [])
    (h : ∀ f ∈ files, (pathParts root).isPrefixOf (pathParts f) = true) :
    copy_external_files md5hex target_directory root files
      = Except.ok
          (files.map (fun f => copyActionOf target_directory (root_hash md5hex root) root f),
           [(root, target_directory ++ "/" ++ root_hash md5hex root)]) := by
  have hl := copyLoop_ok target_directory (root_hash md5hex root) root files h
  have hne' : files.isEmpty = false := by
    cases files with
    | nil => exact absurd rfl hne
    | cons f rest => rfl
  rw [hne'] at hl
  simp [copy_external_files, hl]

/-- Witness for C4: two files under root "/data" are copied into
"/out/h" at their root-relative paths, and the returned mapping sends
"/data" to "/out/h". -/
theorem copy_external_files_spec_witness :
    copy_external_files (fun _ => "h") "/out" "/data" ["/data/a/x", "/data/y"]
      = Except.ok
          (["/data/a/x", "/data/y"].map
            (fun f => copyActionOf "/out" (root_hash (fun _ => "h") "/data") "/data" f),
           [("/data", "/out" ++ "/" ++ root_hash (fun _ => "h") "/data")]) ∧
    copyActionOf "/out" (root_hash (fun _ => "h") "/data") "/data" "/data/a/x"
      = ⟨"/out/h/a", "/data/a/x", "/out/h/a/x"⟩ :=
  ⟨copy_external_files_spec (fun _ => "h") "/out" "/data" ["/data/a/x", "/data/y"]
    (by decide) (by decide), by decide⟩

/-- Counterexample to C4 as stated for every iterable of files: with an
empty iterable the call raises (NameError) instead of returning the
single-entry mapping from the root to the new root. -/
theorem copy_external_files_empty_not_ok :
    copy_external_files (fun _ => "h") "/out" "/data" []
      ≠ Except.ok (([] : List CopyAction),
          [("/data", "/out" ++ "/" ++ root_hash (fun _ => "h") "/data")]) :=
  fun h => Except.noConfusion h

/-- C10: called with an empty files iterable, `copy_external_files`
raises at its return statement — `new_root` is bound only inside the
per-file loop, so `return {root: str(new_root)}` hits an unbound name —
instead of returning the mapping. -/
theorem copy_external_files_empty (md5hex : String → String) (target_directory root : String) :
    copy_external_files md5hex target_directory root []
      = Except.error "NameError: name new_root is not defined" := rfl

/-- A source catalog for `export_uids`: looking a uid up
(`source_catalog[uid]`) may raise, which the per-run try block catches. -/
abbrev Catalog := String → Except Err Run

/-- The body of the per-uid try block of `export_uids` (lines 77-86 of
`_pack.py`): look the Run up, then export it.  Returns the effect trace
performed for this uid and the outcome. -/
def uidResult (catalog : Catalog) (external : Option String) (dryRun : Bool) (fill : Filler)
    (uid : String) : List Effect × Except Err FilesMap :=
  match catalog uid with
  | Except.error e => ([], Except.error e)
  | Except.ok run => export_run run external dryRun fill

/-- Whether an outcome is a success. -/
def exOk {ε α : Type} : Except ε α → Bool
  | Except.ok _ => true
  | Except.error _ => false

/-- The files mapping a uid's export contributed (empty when it failed). -/
def uidFiles (catalog : Catalog) (external : Option String) (dryRun : Bool) (fill : Filler)
    (uid : String) : FilesMap :=
  match (uidResult catalog external dryRun fill uid).2 with
  | Except.ok f => f
  | Except.error _ => fun _ => ∅

/-- The loop of `export_uids` (lines 75-95): per uid, on success merge
the run's mapping into the accumulator (set union per root); on failure
re-raise when `strict`, else append the uid to the failures list and
continue.  The first component records, in order, the effect trace of
every uid attempted. -/
def exportUidsLoop (catalog : Catalog) (strict : Bool) (external : Option String)
    (dryRun : Bool) (fill : Filler) :
    List String → FilesMap → List String →
      List (String × List Effect) × Except Err (FilesMap × List String)
  | [], acc, failures => ([], Except.ok (acc, failures))
  | uid :: rest, acc, failures =>
    let tr := uidResult catalog external dryRun fill uid
    match tr.2 with
    | Except.ok files =>
      let next := exportUidsLoop catalog strict external dryRun fill rest
        (fun x => acc x ∪ files x) failures
      ((uid, tr.1) :: next.1, next.2)
    | Except.error e =>
      if strict then ([(uid, tr.1)], Except.error e)
      else
        let next := exportUidsLoop catalog strict external dryRun fill rest acc
          (failures ++ [uid])
        ((uid, tr.1) :: next.1, next.2)

/-- Embedding of `export_uids` (lines 28-96). -/
def export_uids (catalog : Catalog) (uids : List String) (strict : Bool)
    (external : Option String) (dryRun : Bool) (fill : Filler) :
    List (String × List Effect) × Except Err (FilesMap × List String) :=
  exportUidsLoop catalog strict external dryRun fill uids (fun _ => ∅) []

/-- The files mapping one run's export contributed (empty if it failed). -/
def runFiles (external : Option String) (dryRun : Bool) (fill : Filler) (run : Run) : FilesMap :=
  match (export_run run external dryRun fill).2 with
  | Except.ok f => f
  | Except.error _ => fun _ => ∅

/-- The loop of `export_catalog` (lines 143-162): identical to the
`export_uids` loop, but iterating `source_catalog.items()` pairs. -/
def exportCatalogLoop (strict : Bool) (external : Option String)
    (dryRun : Bool) (fill : Filler) :
    List (String × Run) → FilesMap → List String →
      List (String × List Effect) × Except Err (FilesMap × List String)
  | [], acc, failures => ([], Except.ok (acc, failures))
  | (uid, run) :: rest, acc, failures =>
    let tr := export_run run external dryRun fill
    match tr.2 with
    | Except.ok files =>
      let next := exportCatalogLoop strict external dryRun fill rest
        (fun x => acc x ∪ files x) failures
      ((uid, tr.1) :: next.1, next.2)
    | Except.error e =>
      if strict then ([(uid, tr.1)], Except.error e)
      else
        let next := exportCatalogLoop strict external dryRun fill rest acc
          (failures ++ [uid])
        ((uid, tr.1) :: next.1, next.2)

/-- Embedding of `export_catalog` (lines 99-163), over the catalog's
`items()` view. -/
def export_catalog (items : List (String × Run)) (strict : Bool)
    (external : Option String) (dryRun : Bool) (fill : Filler) :
    List (String × List Effect) × Except Err (FilesMap × List String) :=
  exportCatalogLoop strict external dryRun fill items (fun _ => ∅) []

/-- Pointwise union of a list of files mappings. -/
def unionOver (fs : List FilesMap) : FilesMap :=
  fun x => (fs.map (fun f => f x)).foldr (fun a b => a ∪ b) ∅

theorem foldr_union_base (l : List (Finset String)) (c : Finset String) :
    l.foldr (fun a b => a ∪ b) c = l.foldr (fun a b => a ∪ b) ∅ ∪ c := by
  induction l with
  | nil => simp
  | cons a l ih => simp [ih, Finset.union_assoc]

theorem unionOver_append (fs gs : List FilesMap) (x : String) :
    unionOver (fs ++ gs) x = unionOver fs x ∪ unionOver gs x := by
  simp only [unionOver, List.map_append, List.foldr_append]
  rw [foldr_union_base]

/-- Per-uid entry of the batch trace: the uid and the effects its
attempt performed. -/
def uidTraceEntry (catalog : Catalog) (external : Option String) (dryRun : Bool) (fill : Filler)
    (uid : String) : String × List Effect :=
  (uid, (uidResult catalog external dryRun fill uid).1)

/-- Per-item entry of the batch trace for `export_catalog`. -/
def itemTraceEntry (external : Option String) (dryRun : Bool) (fill : Filler)
    (p : String × Run) : String × List Effect :=
  (p.1, (export_run p.2 external dryRun fill).1)

theorem exportUidsLoop_ok_front (catalog : Catalog) (strict : Bool) (external : Option String)
    (dryRun : Bool) (fill : Filler) (B rest : List String) (failures : List String) :
    ∀ acc : FilesMap, (∀ u ∈ B, exOk (uidResult catalog external dryRun fill u).2 = true) →
    exportUidsLoop catalog strict external dryRun fill (B ++ rest) acc failures
      = (B.map (uidTraceEntry catalog external dryRun fill)
          ++ (exportUidsLoop catalog strict external dryRun fill rest
              (fun x => acc x ∪ unionOver (B.map (uidFiles catalog external dryRun fill)) x)
              failures).1,
         (exportUidsLoop catalog strict external dryRun fill rest
              (fun x => acc x ∪ unionOver (B.map (uidFiles catalog external dryRun fill)) x)
              failures).2) := by
  induction B with
  | nil =>
    intro acc _hB
    have hacc : (fun x => acc x
        ∪ unionOver (List.map (uidFiles catalog external dryRun fill) []) x) = acc := by
      funext x
      simp [unionOver]
    rw [List.nil_append, hacc]
    simp
  | cons u B' ih =>
    intro acc hB
    have hu := hB u (by simp)
    obtain ⟨f, hf⟩ : ∃ f, (uidResult catalog external dryRun fill u).2 = Except.ok f := by
      cases h : (uidResult catalog external dryRun fill u).2 with
      | ok f => exact ⟨f, rfl⟩
      | error e => simp [exOk, h] at hu
    have hfile : uidFiles catalog external dryRun fill u = f := by
      simp [uidFiles, hf]
    have hacc : (fun x => (acc x ∪ f x)
          ∪ unionOver (List.map (uidFiles catalog external dryRun fill) B') x)
        = (fun x => acc x
          ∪ unionOver (List.map (uidFiles catalog external dryRun fill) (u :: B')) x) := by
      funext x
      simp only [unionOver, List.map_cons, List.foldr_cons]
      rw [hfile, Finset.union_assoc]
    simp only [List.cons_append, exportUidsLoop, hf]
    simp only [List.append_eq]
    rw [ih (fun x => acc x ∪ f x) (fun v hv => hB v (by simp [hv])), hacc]
    simp [uidTraceEntry]

theorem exportUidsLoop_all_ok (catalog : Catalog) (strict : Bool) (external : Option String)
    (dryRun : Bool) (fill : Filler) (A : List String) (failures : List String) (acc : FilesMap)
    (hA : ∀ u ∈ A, exOk (uidResult catalog external dryRun fill u).2 = true) :
    exportUidsLoop catalog strict external dryRun fill A acc failures
      = (A.map (uidTraceEntry catalog external dryRun fill),
         Except.ok ((fun x => acc x
            ∪ unionOver (A.map (uidFiles catalog external dryRun fill)) x), failures)) := by
  have h := exportUidsLoop_ok_front catalog strict external dryRun fill A [] failures acc hA
  rw [List.append_nil] at h
  rw [h]
  simp [exportUidsLoop]

theorem exportCatalogLoop_ok_front (strict : Bool) (external : Option String)
    (dryRun : Bool) (fill : Filler) (B rest : List (String × Run))
    (failures : List String) :
    ∀ acc : FilesMap, (∀ p ∈ B, exOk (export_run p.2 external dryRun fill).2 = true) →
    exportCatalogLoop strict external dryRun fill (B ++ rest) acc failures
      = (B.map (itemTraceEntry external dryRun fill)
          ++ (exportCatalogLoop strict external dryRun fill rest
              (fun x => acc x
                ∪ unionOver (B.map (fun p => runFiles external dryRun fill p.2)) x)
              failures).1,
         (exportCatalogLoop strict external dryRun fill rest
              (fun x => acc x
                ∪ unionOver (B.map (fun p => runFiles external dryRun fill p.2)) x)
              failures).2) := by
  induction B with
  | nil =>
    intro acc _hB
    have hacc : (fun x => acc x
        ∪ unionOver (List.map (fun p : String × Run => runFiles external dryRun fill p.2) []) x)
        = acc := by
      funext x
      simp [unionOver]
    rw [List.nil_append, hacc]
    simp
  | cons p B' ih =>
    intro acc hB
    have hu := hB p (by simp)
    obtain ⟨f, hf⟩ : ∃ f, (export_run p.2 external dryRun fill).2 = Except.ok f := by
      cases h : (export_run p.2 external dryRun fill).2 with
      | ok f => exact ⟨f, rfl⟩
      | error e => simp [exOk, h] at hu
    have hfile : runFiles external dryRun fill p.2 = f := by
      simp [runFiles, hf]
    have hacc : (fun x => (acc x ∪ f x)
          ∪ unionOver (List.map (fun q : String × Run => runFiles external dryRun fill q.2) B') x)
        = (fun x => acc x
          ∪ unionOver (List.map (fun q : String × Run => runFiles external dryRun fill q.2)
              (p :: B')) x) := by
      funext x
      simp only [unionOver, List.map_cons, List.foldr_cons]
      rw [hfile, Finset.union_assoc]
    obtain ⟨uid, run⟩ := p
    simp only [List.cons_append, exportCatalogLoop, hf]
    simp only [List.append_eq]
    rw [ih (fun x => acc x ∪ f x) (fun q hq => hB q (by simp [hq])), hacc]
    simp [itemTraceEntry]

theorem exportCatalogLoop_all_ok (strict : Bool) (external : Option String)
    (dryRun : Bool) (fill : Filler) (A : List (String × Run)) (failures : List String)
    (acc : FilesMap)
    (hA : ∀ p ∈ A, exOk (export_run p.2 external dryRun fill).2 = true) :
    exportCatalogLoop strict external dryRun fill A acc failures
      = (A.map (itemTraceEntry external dryRun fill),
         Except.ok ((fun x => acc x
            ∪ unionOver (A.map (fun p => runFiles external dryRun fill p.2)) x), failures)) := by
  have h := exportCatalogLoop_ok_front strict external dryRun fill A [] failures acc hA
  rw [List.append_nil] at h
  rw [h]
  simp [exportCatalogLoop]

/-- C1: batch export over runs B ++ [k] ++ A where exactly run k fails:
with `strict=False` no exception escapes, k's uid is the failures list,
every run is attempted, and the returned mapping is the per-root set
union of the mappings of the runs that succeeded; with `strict=True` the
exception propagates, the runs before k are fully exported (their whole
effect traces appear in the batch trace) and no run after k is
attempted.  Stated for both `export_uids` and `export_catalog`. -/
theorem batch_export_failure_isolation
    (catalog : Catalog) (external : Option String) (dryRun : Bool) (fill : Filler)
    (B A : List String) (k : String) (e : Err)
    (hB : ∀ u ∈ B, exOk (uidResult catalog external dryRun fill u).2 = true)
    (hA : ∀ u ∈ A, exOk (uidResult catalog external dryRun fill u).2 = true)
    (hk : (uidResult catalog external dryRun fill k).2 = Except.error e)
    (external2 : Option String) (dryRun2 : Bool) (fill2 : Filler)
    (IB IA : List (String × Run)) (ku : String) (kr : Run) (e2 : Err)
    (hIB : ∀ p ∈ IB, exOk (export_run p.2 external2 dryRun2 fill2).2 = true)
    (hIA : ∀ p ∈ IA, exOk (export_run p.2 external2 dryRun2 fill2).2 = true)
    (hk2 : (export_run kr external2 dryRun2 fill2).2 = Except.error e2) :
    export_uids catalog (B ++ k :: A) false external dryRun fill
      = (B.map (uidTraceEntry catalog external dryRun fill)
          ++ uidTraceEntry catalog external dryRun fill k
            :: A.map (uidTraceEntry catalog external dryRun fill),
         Except.ok (unionOver ((B ++ A).map (uidFiles catalog external dryRun fill)), [k])) ∧
    export_uids catalog (B ++ k :: A) true external dryRun fill
      = (B.map (uidTraceEntry catalog external dryRun fill)
          ++ [uidTraceEntry catalog external dryRun fill k],
         Except.error e) ∧
    export_catalog (IB ++ (ku, kr) :: IA) false external2 dryRun2 fill2
      = (IB.map (itemTraceEntry external2 dryRun2 fill2)
          ++ itemTraceEntry external2 dryRun2 fill2 (ku, kr)
            :: IA.map (itemTraceEntry external2 dryRun2 fill2),
         Except.ok (unionOver ((IB ++ IA).map (fun p => runFiles external2 dryRun2 fill2 p.2)),
           [ku])) ∧
    export_catalog (IB ++ (ku, kr) :: IA) true external2 dryRun2 fill2
      = (IB.map (itemTraceEntry external2 dryRun2 fill2)
          ++ [itemTraceEntry external2 dryRun2 fill2 (ku, kr)],
         Except.error e2) := by
  have hkstep : ∀ (acc : FilesMap) (failures : List String),
      exportUidsLoop catalog false external dryRun fill (k :: A) acc failures
        = (uidTraceEntry catalog external dryRun fill k
            :: A.map (uidTraceEntry catalog external dryRun fill),
           Except.ok ((fun x => acc x
              ∪ unionOver (A.map (uidFiles catalog external dryRun fill)) x),
             failures ++ [k])) := by
    intro acc failures
    simp only [exportUidsLoop, hk]
    rw [exportUidsLoop_all_ok catalog false external dryRun fill A (failures ++ [k]) acc hA]
    simp [uidTraceEntry]
  have hkstep2 : ∀ (acc : FilesMap) (failures : List String),
      exportCatalogLoop false external2 dryRun2 fill2 ((ku, kr) :: IA) acc failures
        = (itemTraceEntry external2 dryRun2 fill2 (ku, kr)
            :: IA.map (itemTraceEntry external2 dryRun2 fill2),
           Except.ok ((fun x => acc x
              ∪ unionOver (IA.map (fun p => runFiles external2 dryRun2 fill2 p.2)) x),
             failures ++ [ku])) := by
    intro acc failures
    simp only [exportCatalogLoop, hk2]
    rw [exportCatalogLoop_all_ok false external2 dryRun2 fill2 IA (failures ++ [ku]) acc hIA]
    simp [itemTraceEntry]
  refine ⟨?_, ?_, ?_, ?_⟩
  · simp only [export_uids,
      exportUidsLoop_ok_front catalog false external dryRun fill B (k :: A) [] (fun _ => ∅) hB,
      hkstep]
    refine congrArg₂ Prod.mk rfl (congrArg Except.ok (congrArg₂ Prod.mk ?_ rfl))
    funext x
    rw [List.map_append, unionOver_append]
    simp
  · simp only [export_uids,
      exportUidsLoop_ok_front catalog true external dryRun fill B (k :: A) [] (fun _ => ∅) hB]
    simp only [exportUidsLoop, hk]
    simp [uidTraceEntry]
  · simp only [export_catalog,
      exportCatalogLoop_ok_front false external2 dryRun2 fill2 IB ((ku, kr) :: IA) []
        (fun _ => ∅) hIB,
      hkstep2]
    refine congrArg₂ Prod.mk rfl (congrArg Except.ok (congrArg₂ Prod.mk ?_ rfl))
    funext x
    rw [List.map_append, unionOver_append]
    simp
  · simp only [export_catalog,
      exportCatalogLoop_ok_front true external2 dryRun2 fill2 IB ((ku, kr) :: IA) []
        (fun _ => ∅) hIB]
    simp only [exportCatalogLoop, hk2]
    simp [itemTraceEntry]

/-- A run with one resource under root "/r1" (C1 witness data). -/
def run1 : Run :=
  ⟨[("resource", ⟨"/r1", "a"⟩)], fun d => if d.payload = "a" then ["/r1/f1"] else []⟩

/-- A run with one resource under root "/r2" (C1 witness data). -/
def run3 : Run :=
  ⟨[("resource", ⟨"/r2", "b"⟩)], fun d => if d.payload = "b" then ["/r2/g1"] else []⟩

/-- Catalog for the C1 witness: "u1" and "u3" resolve, anything else
raises KeyError. -/
def c1Catalog : Catalog := fun uid =>
  if uid = "u1" then Except.ok run1
  else if uid = "u3" then Except.ok run3
  else Except.error "KeyError"

/-- A filler that raises on documents whose payload is "boom". -/
def failFill : Filler := fun n d =>
  if d.payload = "boom" then Except.error "FillError" else Except.ok (n, d)

/-- Plain runs for the C1 witness's `export_catalog` half. -/
def runOkA : Run := ⟨[("start", ⟨"", "sa"⟩)], fun _ => []⟩

/-- The run whose filling fails in the C1 witness. -/
def runBoom : Run := ⟨[("event", ⟨"", "boom"⟩)], fun _ => []⟩

/-- Last run of the C1 witness's `export_catalog` half. -/
def runOkB : Run := ⟨[("stop", ⟨"", "sb"⟩)], fun _ => []⟩

/-- Witness for C1: a three-uid batch whose middle lookup raises, and a
three-run catalog whose middle run fails while filling, in both strict
modes; the non-strict uids result's mapping is concretely evaluated. -/
theorem batch_export_failure_isolation_witness :
    (export_uids c1Catalog ["u1", "u2", "u3"] false none false idFill
      = (["u1"].map (uidTraceEntry c1Catalog none false idFill)
          ++ uidTraceEntry c1Catalog none false idFill "u2"
            :: ["u3"].map (uidTraceEntry c1Catalog none false idFill),
         Except.ok (unionOver ((["u1"] ++ ["u3"]).map (uidFiles c1Catalog none false idFill)),
           ["u2"]))) ∧
    (export_uids c1Catalog ["u1", "u2", "u3"] true none false idFill
      = (["u1"].map (uidTraceEntry c1Catalog none false idFill)
          ++ [uidTraceEntry c1Catalog none false idFill "u2"],
         Except.error "KeyError")) ∧
    (export_catalog [("c1", runOkA), ("c2", runBoom), ("c3", runOkB)] false
        (some "fill") false failFill
      = ([("c1", runOkA)].map (itemTraceEntry (some "fill") false failFill)
          ++ itemTraceEntry (some "fill") false failFill ("c2", runBoom)
            :: [("c3", runOkB)].map (itemTraceEntry (some "fill") false failFill),
         Except.ok
           (unionOver (([("c1", runOkA)] ++ [("c3", runOkB)]).map
             (fun p => runFiles (some "fill") false failFill p.2)), ["c2"]))) ∧
    (export_catalog [("c1", runOkA), ("c2", runBoom), ("c3", runOkB)] true
        (some "fill") false failFill
      = ([("c1", runOkA)].map (itemTraceEntry (some "fill") false failFill)
          ++ [itemTraceEntry (some "fill") false failFill ("c2", runBoom)],
         Except.error "FillError")) ∧
    unionOver ((["u1"] ++ ["u3"]).map (uidFiles c1Catalog none false idFill)) "/r1"
      = {"/r1/f1"} :=
  have h := batch_export_failure_isolation c1Catalog none false idFill
    ["u1"] ["u3"] "u2" "KeyError" (by decide) (by decide) rfl
    (some "fill") false failFill [("c1", runOkA)] [("c3", runOkB)] "c2" runBoom "FillError"
    (by decide) (by decide) rfl
  ⟨h.1, h.2.1, h.2.2.1, h.2.2.2, by decide⟩

end DatabrokerPack
